import Mathlib

/-!
Verification development for an interrupt-driven USART transmit driver
(STM32L4 C++ firmware, `Drivers/Device/Inc/usart.h` and
`Drivers/Device/Src/usart.cpp`).

The source consists of a power-of-two circular byte buffer
(`CircularBuffer<SIZE>`), a driver (`UsartDriver<BUFFER_SIZE>`) whose
`sendByte` enqueues and conditionally starts a transmission, whose
`handleTxCompleteInterrupt` drains one byte per interrupt, and a one-slot
registry used by the LPUART1 interrupt handler.

The embedding is a direct state-passing translation:

* `uint16_t` indices are modelled as `Nat`.  In C every arithmetic
  operation on them is performed after integer promotion to (32-bit)
  `int` and the results that flow into indices or return values are
  reduced by the bitmask `SIZE - 1`.  A two's-complement subtraction
  `a - b` of promoted `uint16_t` values equals `(a + 2^32 - b) mod 2^32`
  on the bit pattern, so the observers `availableSpace` and `size` are
  modelled with an explicit `% 2^32` wrap before the mask; for every state
  the hardware can reach (indices below `SIZE ≤ 2^15`) this coincides with
  the machine computation.
* Hardware register writes are external effects; the single observable of
  the transmit path is the byte handed to the peripheral adapter
  primitive `transmitByte`, which the driver operations below return as
  an explicit trace (`List Nat`) alongside the new state.
-/

namespace USART

/-- Model of `USART::PeripheralType` from `usart.h`. -/
inductive PeripheralType where
  | USART_1
  | USART_2
  | USART_3
  | LPUART_1
deriving DecidableEq

/-- Model of `USART::Config` from `usart.h` (six `uint32_t` fields). -/
structure Config where
  baudRate : Nat
  wordLength : Nat
  stopBits : Nat
  parity : Nat
  hwFlowControl : Nat
  transferDirection : Nat
deriving DecidableEq

/-- Model of `USART::getDefaultLpuartConfig` from `usart.cpp`. -/
def getDefaultLpuartConfig : Config :=
  { baudRate := 115200, wordLength := 0, stopBits := 0, parity := 0
    hwFlowControl := 0, transferDirection := 0x0000000C }

/-- Model of `CircularBuffer<SIZE>` from `usart.h`: a byte array with a
producer index `head` and a consumer index `tail`, both zero-initialised.
The byte array is modelled as a total function on `Nat`; only positions
below `SIZE` are ever read or written by the operations. -/
structure CircularBuffer (SIZE : Nat) where
  buffer : Nat → Nat
  head : Nat
  tail : Nat

variable {SIZE : Nat}

/-- A freshly constructed buffer: `head = 0`, `tail = 0` (in-class member
initialisers); the C array contents are indeterminate, modelled as 0. -/
def CircularBuffer.start (SIZE : Nat) : CircularBuffer SIZE :=
  ⟨fun _ => 0, 0, 0⟩

/-- `CircularBuffer::put`:
```
uint16_t next_head = (head + 1) & MASK;
if (next_head == tail) return false;   // Buffer full
buffer[head] = data; head = next_head; return true;
```
Returns the new state and the C `bool` result. -/
def CircularBuffer.put (cb : CircularBuffer SIZE) (data : Nat) :
    CircularBuffer SIZE × Bool :=
  let next_head := (cb.head + 1) &&& (SIZE - 1)
  if next_head = cb.tail then
    (cb, false)
  else
    ({ buffer := fun i => if i = cb.head then data else cb.buffer i
       head := next_head, tail := cb.tail }, true)

/-- `CircularBuffer::get`:
```
if (head == tail) return false;        // Buffer empty
data = buffer[tail]; tail = (tail + 1) & MASK; return true;
```
The C out-parameter/`bool` pair is modelled as an `Option`. -/
def CircularBuffer.get (cb : CircularBuffer SIZE) :
    CircularBuffer SIZE × Option Nat :=
  if cb.head = cb.tail then
    (cb, none)
  else
    ({ cb with tail := (cb.tail + 1) &&& (SIZE - 1) },
     some (cb.buffer cb.tail))

/-- `CircularBuffer::isEmpty`: `head == tail`. -/
def CircularBuffer.isEmpty (cb : CircularBuffer SIZE) : Bool :=
  cb.head == cb.tail

/-- `CircularBuffer::isFull`: `((head + 1) & MASK) == tail`. -/
def CircularBuffer.isFull (cb : CircularBuffer SIZE) : Bool :=
  ((cb.head + 1) &&& (SIZE - 1)) == cb.tail

/-- `CircularBuffer::availableSpace`: `(tail - head - 1) & MASK`, where the
subtraction happens on `int`-promoted operands (two's complement), hence
the explicit `2^32` wrap. -/
def CircularBuffer.availableSpace (cb : CircularBuffer SIZE) : Nat :=
  ((cb.tail + 2 ^ 32 - cb.head - 1) % 2 ^ 32) &&& (SIZE - 1)

/-- `CircularBuffer::size`: `(head - tail) & MASK`, with the same
`int`-promoted two's-complement subtraction. -/
def CircularBuffer.size (cb : CircularBuffer SIZE) : Nat :=
  ((cb.head + 2 ^ 32 - cb.tail) % 2 ^ 32) &&& (SIZE - 1)

/-- `CircularBuffer::clear`: `head = 0; tail = 0;`. -/
def CircularBuffer.clear (cb : CircularBuffer SIZE) : CircularBuffer SIZE :=
  { cb with head := 0, tail := 0 }

/-- Abstraction function used to state properties: the queued bytes, oldest
first, read from the backing array at the wrapped positions
`tail, tail+1, …` for `size` steps. -/
def CircularBuffer.contents (cb : CircularBuffer SIZE) : List Nat :=
  (List.range cb.size).map fun i => cb.buffer ((cb.tail + i) % SIZE)

/-- Iterated `put`, recording each call's boolean result in order. -/
def CircularBuffer.putAll (cb : CircularBuffer SIZE) :
    List Nat → CircularBuffer SIZE × List Bool
  | [] => (cb, [])
  | b :: bs =>
    let r := cb.put b
    let s := r.1.putAll bs
    (s.1, r.2 :: s.2)

/-- Model of `UsartDriver<BUFFER_SIZE>`: the fields that participate in the
transmit path.  The opaque hardware handle `usartInstance` is determined
by `peripheralType` and carries no further information, so it is omitted. -/
structure UsartDriver (SIZE : Nat) where
  peripheralType : PeripheralType
  config : Config
  txBuffer : CircularBuffer SIZE
  transmissionActive : Bool

/-- The `UsartDriver(PeripheralType)` constructor: empty buffer,
`transmissionActive = false`; `config` is default-initialised. -/
def UsartDriver.construct (SIZE : Nat) (p : PeripheralType) :
    UsartDriver SIZE :=
  { peripheralType := p, config := ⟨0, 0, 0, 0, 0, 0⟩
    txBuffer := CircularBuffer.start SIZE, transmissionActive := false }

/-- Model of `UsartDriver::initialize(cfg)`: stores the configuration,
performs hardware initialisation (an external effect on peripheral
registers, outside this model), and returns `true` unconditionally. -/
def UsartDriver.initConfig (d : UsartDriver SIZE) (cfg : Config) :
    UsartDriver SIZE × Bool :=
  ({ d with config := cfg }, true)

/-- `UsartDriver::startTransmission`:
```
if (txBuffer.isEmpty()) return;
transmissionActive = true;
uint8_t data;
if (txBuffer.get(data)) transmitByte(data);
```
The returned list is the trace of bytes handed to `transmitByte`. -/
def UsartDriver.startTransmission (d : UsartDriver SIZE) :
    UsartDriver SIZE × List Nat :=
  if d.txBuffer.isEmpty then
    (d, [])
  else
    let d1 : UsartDriver SIZE := { d with transmissionActive := true }
    match d1.txBuffer.get with
    | (cb, some data) => ({ d1 with txBuffer := cb }, [data])
    | (cb, none) => ({ d1 with txBuffer := cb }, [])

/-- `UsartDriver::sendByte`:
```
bool success = txBuffer.put(data);
if (success && !transmissionActive) startTransmission();
return success;
```
Returns new state, the `bool` result, and the trace of transmitted bytes. -/
def UsartDriver.sendByte (d : UsartDriver SIZE) (data : Nat) :
    UsartDriver SIZE × Bool × List Nat :=
  let r := d.txBuffer.put data
  let d1 : UsartDriver SIZE := { d with txBuffer := r.1 }
  if r.2 && !d1.transmissionActive then
    let s := d1.startTransmission
    (s.1, r.2, s.2)
  else
    (d1, r.2, [])

/-- `UsartDriver::handleTxCompleteInterrupt`:
```
uint8_t data;
if (txBuffer.get(data)) transmitByte(data);
else transmissionActive = false;
``` -/
def UsartDriver.handleTxCompleteInterrupt (d : UsartDriver SIZE) :
    UsartDriver SIZE × List Nat :=
  match d.txBuffer.get with
  | (cb, some data) => ({ d with txBuffer := cb }, [data])
  | (cb, none) =>
    ({ d with txBuffer := cb, transmissionActive := false }, [])

/-- `UsartDriver::isTransmissionActive`. -/
def UsartDriver.isTransmissionActive (d : UsartDriver SIZE) : Bool :=
  d.transmissionActive

/-- `UsartDriver::getAvailableSpace`. -/
def UsartDriver.getAvailableSpace (d : UsartDriver SIZE) : Nat :=
  d.txBuffer.availableSpace

/-- `UsartDriver::getQueueSize`. -/
def UsartDriver.getQueueSize (d : UsartDriver SIZE) : Nat :=
  d.txBuffer.size

/-- `UsartDriver::clearBuffer`. -/
def UsartDriver.clearBuffer (d : UsartDriver SIZE) : UsartDriver SIZE :=
  { d with txBuffer := d.txBuffer.clear }

/-- One foreground or interrupt event: `send b` is a foreground
`sendByte(b)` call, `irq` is one transmit-complete interrupt. -/
inductive Ev where
  | send (b : Nat)
  | irq

/-- One event applied to a driver state.  Besides the new state it returns
the list of bytes *successfully enqueued* by the event and the trace of
bytes handed to `transmitByte` during the event. -/
def UsartDriver.step (d : UsartDriver SIZE) : Ev → UsartDriver SIZE × List Nat × List Nat
  | .send b =>
    let r := d.sendByte b
    (r.1, if r.2.1 then [b] else [], r.2.2)
  | .irq =>
    let r := d.handleTxCompleteInterrupt
    (r.1, [], r.2)

/-- Run an arbitrary interleaving of foreground enqueues and interrupt
drains, accumulating the successfully-enqueued bytes and the transmitted
trace in order. -/
def UsartDriver.run (d : UsartDriver SIZE) :
    List Ev → UsartDriver SIZE × List Nat × List Nat
  | [] => (d, [], [])
  | e :: es =>
    let r := d.step e
    let s := r.1.run es
    (s.1, r.2.1 ++ s.2.1, r.2.2 ++ s.2.2)

/-- The one-slot LPUART1 registry `g_lpuart1Instance` from `usart.cpp`
(`nullptr` modelled as `none`).  `registerLpuart1Handler` overwrites the
slot. -/
def registerLpuart1Handler (_reg : Option (UsartDriver 256))
    (inst : UsartDriver 256) : Option (UsartDriver 256) :=
  some inst

/-- `USART::handleLpuart1Interrupt`:
```
if (g_lpuart1Instance != nullptr)
  static_cast<UsartDriver<256>*>(g_lpuart1Instance)->handleTxCompleteInterrupt();
```
Returns the new registry (with the updated driver state) and the trace of
bytes handed to the hardware; when no instance is registered nothing is
invoked. -/
def handleLpuart1Interrupt (reg : Option (UsartDriver 256)) :
    Option (UsartDriver 256) × List Nat :=
  match reg with
  | some d =>
    let r := d.handleTxCompleteInterrupt
    (some r.1, r.2)
  | none => (none, [])

end USART

/-! ### Arithmetic helpers

The buffer sizes accepted by the C code are the powers of two representable
in `uint16_t`, i.e. `2^n` with `n ≤ 15`; all masking collapses to `% 2^n`. -/

theorem mask_eq_mod (n x : Nat) : x &&& (2 ^ n - 1) = x % 2 ^ n :=
  Nat.and_pow_two_sub_one_eq_mod x n

theorem wrap32_mask (n : Nat) (hn : n ≤ 32) (x : Nat) :
    (x % 2 ^ 32) &&& (2 ^ n - 1) = x % 2 ^ n := by
  rw [mask_eq_mod, Nat.mod_mod_of_dvd _ (pow_dvd_pow 2 hn)]

theorem pad_mod (C x p : Nat) (hd : C ∣ p) : (x + p) % C = x % C := by
  obtain ⟨k, rfl⟩ := hd
  exact Nat.add_mul_mod_self_left x C k

/-- Evaluate `a % C` for `a < 2*C`. -/
theorem mod_two_regions (a C : Nat) (_hC : 0 < C) (h : a < 2 * C) :
    a % C = if a < C then a else a - C := by
  split
  · exact Nat.mod_eq_of_lt (by omega)
  · rw [Nat.mod_eq_sub_mod (by omega)]
    exact Nat.mod_eq_of_lt (by omega)

/-- Adding `m` to a reduced index returns to the same value iff `m` is a
multiple of the modulus. -/
theorem add_mod_eq_self_iff (C a m : Nat) (ha : a < C) :
    (a + m) % C = a ↔ m % C = 0 := by
  have hC : 0 < C := by omega
  constructor
  · intro h
    rw [← Nat.add_mod_mod] at h
    have hr : m % C < C := Nat.mod_lt _ hC
    rw [mod_two_regions _ C hC (by omega)] at h
    split at h <;> omega
  · intro h
    rw [← Nat.add_mod_mod, h, Nat.add_zero, Nat.mod_eq_of_lt ha]

namespace USART

/-! ### The index view

`View cb len` says the two indices of `cb` are in the range the hardware
can produce and that the buffer logically holds `len` bytes: the producer
index is the consumer index advanced `len` slots (mod `2^n`).  Every state
reachable from a fresh buffer satisfies `View cb (cb.size)`. -/

structure CircularBuffer.View {n : Nat} (cb : CircularBuffer (2 ^ n))
    (len : Nat) : Prop where
  tail_lt : cb.tail < 2 ^ n
  len_lt : len < 2 ^ n
  head_eq : cb.head = (cb.tail + len) % 2 ^ n

instance {n : Nat} (cb : CircularBuffer (2 ^ n)) (len : Nat) :
    Decidable (cb.View len) :=
  decidable_of_iff
    (cb.tail < 2 ^ n ∧ len < 2 ^ n ∧ cb.head = (cb.tail + len) % 2 ^ n)
    ⟨fun ⟨a, b, c⟩ => ⟨a, b, c⟩, fun ⟨a, b, c⟩ => ⟨a, b, c⟩⟩

theorem CircularBuffer.View.head_lt {n : Nat} {cb : CircularBuffer (2 ^ n)}
    {len : Nat} (hv : cb.View len) : cb.head < 2 ^ n := by
  rw [hv.head_eq]
  exact Nat.mod_lt _ (by positivity)

theorem start_view (n : Nat) : (CircularBuffer.start (2 ^ n)).View 0 := by
  unfold CircularBuffer.start
  exact ⟨by positivity, by positivity, by simp⟩

theorem size_formula {n : Nat} (hn : n ≤ 15) (cb : CircularBuffer (2 ^ n))
    (ht : cb.tail < 2 ^ n) (_hh : cb.head < 2 ^ n) :
    cb.size = (cb.head + 2 ^ n - cb.tail) % 2 ^ n := by
  have hle : (2 : Nat) ^ n ≤ 2 ^ 32 := Nat.pow_le_pow_right (by norm_num) (by omega)
  unfold CircularBuffer.size
  rw [wrap32_mask n (by omega)]
  have h1 : cb.head + 2 ^ 32 - cb.tail
      = (cb.head + 2 ^ n - cb.tail) + (2 ^ 32 - 2 ^ n) := by omega
  rw [h1, pad_mod _ _ _ (Nat.dvd_sub' (pow_dvd_pow 2 (by omega)) dvd_rfl)]

theorem avail_formula {n : Nat} (hn : n ≤ 15) (cb : CircularBuffer (2 ^ n))
    (ht : cb.tail < 2 ^ n) (hh : cb.head < 2 ^ n) :
    cb.availableSpace = (cb.tail + 2 * 2 ^ n - cb.head - 1) % 2 ^ n := by
  have hle : 2 * (2 : Nat) ^ n ≤ 2 ^ 32 := by
    have : (2 : Nat) ^ n ≤ 2 ^ 31 := Nat.pow_le_pow_right (by norm_num) (by omega)
    calc 2 * (2 : Nat) ^ n ≤ 2 * 2 ^ 31 := by omega
    _ = 2 ^ 32 := by norm_num
  unfold CircularBuffer.availableSpace
  rw [wrap32_mask n (by omega)]
  have h1 : cb.tail + 2 ^ 32 - cb.head - 1
      = (cb.tail + 2 * 2 ^ n - cb.head - 1) + (2 ^ 32 - 2 * 2 ^ n) := by omega
  rw [h1, pad_mod _ _ _
    (Nat.dvd_sub' (pow_dvd_pow 2 (by omega)) (Dvd.intro 2 (by ring)))]

/-- Reduce the wrapped producer index in the range the view provides. -/
theorem view_head_cases {n : Nat} {cb : CircularBuffer (2 ^ n)} {len : Nat}
    (hv : cb.View len) :
    cb.head = if cb.tail + len < 2 ^ n then cb.tail + len
      else cb.tail + len - 2 ^ n := by
  obtain ⟨ht, hl, hh⟩ := hv
  rw [hh, mod_two_regions _ _ (by positivity) (by omega)]

theorem view_size {n : Nat} (hn : n ≤ 15) {cb : CircularBuffer (2 ^ n)}
    {len : Nat} (hv : cb.View len) : cb.size = len := by
  have ht := hv.tail_lt
  have hl := hv.len_lt
  rw [size_formula hn cb ht hv.head_lt, view_head_cases hv]
  split
  · have h2 : cb.tail + len + 2 ^ n - cb.tail = len + 2 ^ n := by omega
    rw [h2, Nat.add_mod_right, Nat.mod_eq_of_lt hl]
  · have h2 : cb.tail + len - 2 ^ n + 2 ^ n - cb.tail = len := by omega
    rw [h2, Nat.mod_eq_of_lt hl]

theorem view_avail {n : Nat} (hn : n ≤ 15) {cb : CircularBuffer (2 ^ n)}
    {len : Nat} (hv : cb.View len) : cb.availableSpace = 2 ^ n - 1 - len := by
  have ht := hv.tail_lt
  have hl := hv.len_lt
  rw [avail_formula hn cb ht hv.head_lt, view_head_cases hv]
  split
  · have h2 : cb.tail + 2 * 2 ^ n - (cb.tail + len) - 1
        = (2 ^ n - 1 - len) + 2 ^ n * 1 := by omega
    rw [h2, Nat.add_mul_mod_self_left, Nat.mod_eq_of_lt (by omega)]
  · have h2 : cb.tail + 2 * 2 ^ n - (cb.tail + len - 2 ^ n) - 1
        = (2 ^ n - 1 - len) + 2 ^ n * 2 := by omega
    rw [h2, Nat.add_mul_mod_self_left, Nat.mod_eq_of_lt (by omega)]

theorem view_space_size {n : Nat} (hn : n ≤ 15) {cb : CircularBuffer (2 ^ n)}
    {len : Nat} (hv : cb.View len) :
    cb.availableSpace + cb.size = 2 ^ n - 1 := by
  have hl := hv.len_lt
  rw [view_size hn hv, view_avail hn hv]
  omega

/-- Any in-range pair of indices is a view of its own `size`. -/
theorem view_of_bounds {n : Nat} (cb : CircularBuffer (2 ^ n))
    (hh : cb.head < 2 ^ n) (ht : cb.tail < 2 ^ n) :
    ∃ len, cb.View len := by
  have hC : 0 < 2 ^ n := by positivity
  refine ⟨(cb.head + 2 ^ n - cb.tail) % 2 ^ n, ht, Nat.mod_lt _ hC, ?_⟩
  rw [Nat.add_mod_mod]
  have h1 : cb.tail + (cb.head + 2 ^ n - cb.tail) = cb.head + 2 ^ n := by omega
  rw [h1, Nat.add_mod_right, Nat.mod_eq_of_lt hh]

/-! ### Behaviour of `put` and `get` on a viewed state -/

theorem head_eq_tail_of_view_zero {n : Nat} {cb : CircularBuffer (2 ^ n)}
    (hv : cb.View 0) : cb.head = cb.tail := by
  have h := hv.head_eq
  rwa [Nat.add_zero, Nat.mod_eq_of_lt hv.tail_lt] at h

theorem head_ne_tail_of_view_succ {n : Nat} {cb : CircularBuffer (2 ^ n)}
    {len : Nat} (hv : cb.View (len + 1)) : cb.head ≠ cb.tail := by
  rw [hv.head_eq]
  intro h
  have h0 := (add_mod_eq_self_iff _ _ _ hv.tail_lt).mp h
  rw [Nat.mod_eq_of_lt hv.len_lt] at h0
  omega

/-- A `put` into a buffer holding the maximal `2^n - 1` bytes fails and
returns the state untouched. -/
theorem put_full {n : Nat} {cb : CircularBuffer (2 ^ n)}
    (hv : cb.View (2 ^ n - 1)) (b : Nat) : cb.put b = (cb, false) := by
  have hC : 0 < 2 ^ n := by positivity
  have hcond : (cb.head + 1) % 2 ^ n = cb.tail := by
    rw [hv.head_eq, Nat.mod_add_mod]
    have h1 : cb.tail + (2 ^ n - 1) + 1 = cb.tail + 2 ^ n := by omega
    rw [h1, Nat.add_mod_right, Nat.mod_eq_of_lt hv.tail_lt]
  simp only [CircularBuffer.put, mask_eq_mod]
  rw [if_pos hcond]

/-- A `put` into a buffer with room succeeds, stores the byte at the
producer index and advances the producer index by one slot. -/
theorem put_not_full {n : Nat} {cb : CircularBuffer (2 ^ n)} {len : Nat}
    (hv : cb.View len) (hlt : len < 2 ^ n - 1) (b : Nat) :
    cb.put b =
      ({ buffer := fun i => if i = cb.head then b else cb.buffer i
         head := (cb.tail + len + 1) % 2 ^ n, tail := cb.tail }, true) := by
  have hC : 0 < 2 ^ n := by positivity
  have hnh : (cb.head + 1) % 2 ^ n = (cb.tail + len + 1) % 2 ^ n := by
    rw [hv.head_eq, Nat.mod_add_mod]
  have hcond : ¬ (cb.head + 1) % 2 ^ n = cb.tail := by
    rw [hnh]
    have h1 : cb.tail + len + 1 = cb.tail + (len + 1) := by omega
    rw [h1]
    intro h
    have h0 := (add_mod_eq_self_iff _ _ _ hv.tail_lt).mp h
    rw [Nat.mod_eq_of_lt (by omega : len + 1 < 2 ^ n)] at h0
    omega
  simp only [CircularBuffer.put, mask_eq_mod]
  rw [if_neg hcond, hnh]

theorem view_put {n : Nat} {cb : CircularBuffer (2 ^ n)} {len : Nat}
    (hv : cb.View len) (hlt : len < 2 ^ n - 1) (b : Nat) :
    ((cb.put b).1).View (len + 1) := by
  rw [put_not_full hv hlt b]
  exact ⟨hv.tail_lt, by omega, by
    have h1 : cb.tail + (len + 1) = cb.tail + len + 1 := by omega
    rw [h1]⟩

/-- A `get` from an empty buffer fails and returns the state untouched. -/
theorem get_empty {n : Nat} {cb : CircularBuffer (2 ^ n)}
    (hv : cb.View 0) : cb.get = (cb, none) := by
  simp only [CircularBuffer.get]
  rw [if_pos (head_eq_tail_of_view_zero hv)]

/-- A `get` from a non-empty buffer returns the byte at the consumer index
and advances the consumer index by one slot. -/
theorem get_cons {n : Nat} {cb : CircularBuffer (2 ^ n)} {len : Nat}
    (hv : cb.View (len + 1)) :
    cb.get = ({ cb with tail := (cb.tail + 1) % 2 ^ n },
              some (cb.buffer cb.tail)) := by
  simp only [CircularBuffer.get, mask_eq_mod]
  rw [if_neg (head_ne_tail_of_view_succ hv)]

theorem view_get {n : Nat} {cb : CircularBuffer (2 ^ n)} {len : Nat}
    (hv : cb.View (len + 1)) : ((cb.get).1).View len := by
  rw [get_cons hv]
  refine ⟨Nat.mod_lt _ (by positivity), by have := hv.len_lt; omega, ?_⟩
  rw [Nat.mod_add_mod]
  have h1 : cb.tail + 1 + len = cb.tail + (len + 1) := by omega
  rw [h1]
  exact hv.head_eq

/-! ### Behaviour of `contents` -/

theorem contents_nil {n : Nat} (hn : n ≤ 15) {cb : CircularBuffer (2 ^ n)}
    (hv : cb.View 0) : cb.contents = [] := by
  unfold CircularBuffer.contents
  rw [view_size hn hv]
  rfl

theorem contents_eq_nil_iff {n : Nat} (hn : n ≤ 15)
    {cb : CircularBuffer (2 ^ n)} {len : Nat} (hv : cb.View len) :
    cb.contents = [] ↔ len = 0 := by
  unfold CircularBuffer.contents
  rw [view_size hn hv]
  simp

theorem contents_length {n : Nat} (hn : n ≤ 15)
    {cb : CircularBuffer (2 ^ n)} {len : Nat} (hv : cb.View len) :
    cb.contents.length = len := by
  unfold CircularBuffer.contents
  rw [view_size hn hv]
  simp

theorem contents_put {n : Nat} (hn : n ≤ 15) {cb : CircularBuffer (2 ^ n)}
    {len : Nat} (hv : cb.View len) (hlt : len < 2 ^ n - 1) (b : Nat) :
    ((cb.put b).1).contents = cb.contents ++ [b] := by
  have hC : 0 < 2 ^ n := by positivity
  have hv' := view_put hv hlt b
  unfold CircularBuffer.contents
  rw [view_size hn hv', view_size hn hv, List.range_succ, List.map_append,
    put_not_full hv hlt b]
  congr 1
  · apply List.map_congr_left
    intro i hi
    rw [List.mem_range] at hi
    have hne : (cb.tail + i) % 2 ^ n ≠ cb.head := by
      intro heq
      rw [hv.head_eq] at heq
      have hmod : i % 2 ^ n = len % 2 ^ n :=
        Nat.ModEq.add_left_cancel' cb.tail heq
      rw [Nat.mod_eq_of_lt (by omega), Nat.mod_eq_of_lt hv.len_lt] at hmod
      omega
    simp only [if_neg hne]
  · simp only [List.map_cons, List.map_nil]
    rw [if_pos hv.head_eq.symm]

theorem contents_get {n : Nat} (hn : n ≤ 15) {cb : CircularBuffer (2 ^ n)}
    {len : Nat} (hv : cb.View (len + 1)) :
    cb.contents = cb.buffer cb.tail :: ((cb.get).1).contents := by
  have hv' := view_get hv
  rw [get_cons hv] at hv' ⊢
  unfold CircularBuffer.contents
  rw [view_size hn hv, view_size hn hv', List.range_succ_eq_map,
    List.map_cons, List.map_map]
  congr 1
  · rw [Nat.add_zero, Nat.mod_eq_of_lt hv.tail_lt]
  · apply List.map_congr_left
    intro i hi
    simp only [Function.comp_apply, Nat.succ_eq_add_one]
    rw [Nat.mod_add_mod]
    have h1 : cb.tail + 1 + i = cb.tail + (i + 1) := by omega
    rw [h1]

/-! ### Driver operations on a viewed state -/

theorem isEmpty_false_of_view_succ {n : Nat} {cb : CircularBuffer (2 ^ n)}
    {len : Nat} (hv : cb.View (len + 1)) : cb.isEmpty = false := by
  unfold CircularBuffer.isEmpty
  exact beq_eq_false_iff_ne.mpr (head_ne_tail_of_view_succ hv)

/-- `sendByte` on a full buffer: the byte is rejected, nothing changes,
nothing is transmitted. -/
theorem sendByte_full {n : Nat} {d : UsartDriver (2 ^ n)}
    (hv : d.txBuffer.View (2 ^ n - 1)) (b : Nat) :
    d.sendByte b = (d, false, []) := by
  unfold UsartDriver.sendByte
  rw [put_full hv b]
  simp

/-- `sendByte` while a transmission is active: the byte is enqueued and
no hardware action is taken. -/
theorem sendByte_active {n : Nat} {d : UsartDriver (2 ^ n)} {len : Nat}
    (hv : d.txBuffer.View len) (hlt : len < 2 ^ n - 1)
    (hact : d.transmissionActive = true) (b : Nat) :
    d.sendByte b = ({ d with txBuffer := (d.txBuffer.put b).1 }, true, []) := by
  have hsucc : (d.txBuffer.put b).2 = true := by
    rw [put_not_full hv hlt b]
  unfold UsartDriver.sendByte
  simp only [hsucc, hact, Bool.not_true, Bool.and_false, Bool.false_eq_true,
    if_false]

/-- `sendByte` from the idle state with room in the buffer: the byte is
enqueued, the oldest queued byte is pulled and handed to the adapter, and
the state becomes active (the `Idle → Active` transition of the state
machine, executed in the foreground context). -/
theorem sendByte_idle {n : Nat} {d : UsartDriver (2 ^ n)} {len : Nat}
    (hv : d.txBuffer.View len) (hlt : len < 2 ^ n - 1)
    (hact : d.transmissionActive = false) (b : Nat) :
    d.sendByte b =
      ({ d with
          txBuffer := ((d.txBuffer.put b).1.get).1,
          transmissionActive := true },
       true,
       [(d.txBuffer.put b).1.buffer (d.txBuffer.put b).1.tail]) := by
  have hv1 := view_put hv hlt b
  have hsucc : (d.txBuffer.put b).2 = true := by
    rw [put_not_full hv hlt b]
  have hne := isEmpty_false_of_view_succ hv1
  have hget := get_cons hv1
  unfold UsartDriver.sendByte UsartDriver.startTransmission
  simp only [hsucc, hact, Bool.not_false, Bool.and_true, if_true, hne,
    Bool.false_eq_true, if_false, hget]

/-- The interrupt drain on an empty buffer: no hardware action, the state
machine returns to idle. -/
theorem handleTx_empty {n : Nat} {d : UsartDriver (2 ^ n)}
    (hv : d.txBuffer.View 0) :
    d.handleTxCompleteInterrupt = ({ d with transmissionActive := false }, []) := by
  unfold UsartDriver.handleTxCompleteInterrupt
  rw [get_empty hv]

/-- The interrupt drain on a non-empty buffer: the oldest byte is pulled
and handed to the adapter; `transmissionActive` is not written. -/
theorem handleTx_cons {n : Nat} {d : UsartDriver (2 ^ n)} {len : Nat}
    (hv : d.txBuffer.View (len + 1)) :
    d.handleTxCompleteInterrupt =
      ({ d with txBuffer := (d.txBuffer.get).1 },
       [d.txBuffer.buffer d.txBuffer.tail]) := by
  have hget := get_cons hv
  unfold UsartDriver.handleTxCompleteInterrupt
  rw [hget]

/-! ### The FIFO simulation

Each event keeps the buffer well-formed, and the bytes accepted so far are
always the transmitted trace followed by the bytes still queued. -/

theorem step_sim {n : Nat} (hn : n ≤ 15) (d : UsartDriver (2 ^ n))
    (len : Nat) (hv : d.txBuffer.View len) (e : Ev) :
    ∃ len', ((d.step e).1.txBuffer).View len' ∧
      d.txBuffer.contents ++ (d.step e).2.1 =
        (d.step e).2.2 ++ ((d.step e).1.txBuffer).contents := by
  cases e with
  | irq =>
    cases len with
    | zero =>
      simp only [UsartDriver.step, handleTx_empty hv]
      exact ⟨0, hv, by simp⟩
    | succ k =>
      simp only [UsartDriver.step, handleTx_cons hv]
      refine ⟨k, view_get hv, ?_⟩
      rw [List.append_nil, List.singleton_append]
      exact contents_get hn hv
  | send b =>
    by_cases hfull : len = 2 ^ n - 1
    · subst hfull
      simp only [UsartDriver.step, sendByte_full hv b]
      exact ⟨_, hv, by simp⟩
    · have hlt : len < 2 ^ n - 1 := by have := hv.len_lt; omega
      cases hact : d.transmissionActive with
      | true =>
        simp only [UsartDriver.step, sendByte_active hv hlt hact b]
        refine ⟨len + 1, view_put hv hlt b, ?_⟩
        rw [contents_put hn hv hlt b]
        simp
      | false =>
        simp only [UsartDriver.step, sendByte_idle hv hlt hact b]
        refine ⟨len, view_get (view_put hv hlt b), ?_⟩
        have h1 := contents_get hn (view_put hv hlt b)
        have h2 := contents_put hn hv hlt b
        rw [if_pos trivial, ← h2, h1, List.singleton_append]

theorem run_sim {n : Nat} (hn : n ≤ 15) (evs : List Ev) :
    ∀ (d : UsartDriver (2 ^ n)) (len : Nat), d.txBuffer.View len →
      (∃ len', (((d.run evs).1).txBuffer).View len') ∧
        d.txBuffer.contents ++ (d.run evs).2.1 =
          (d.run evs).2.2 ++ (((d.run evs).1).txBuffer).contents := by
  induction evs with
  | nil =>
    intro d len hv
    exact ⟨⟨len, hv⟩, by simp [UsartDriver.run]⟩
  | cons e es ih =>
    intro d len hv
    obtain ⟨len1, hv1, heq1⟩ := step_sim hn d len hv e
    obtain ⟨hex2, heq2⟩ := ih (d.step e).1 len1 hv1
    refine ⟨by simpa [UsartDriver.run] using hex2, ?_⟩
    simp only [UsartDriver.run]
    rw [← List.append_assoc, heq1, List.append_assoc, heq2,
      ← List.append_assoc]

/-! ### Reachable buffer states -/

/-- States of a `CircularBuffer (2^n)` reachable from construction by any
sequence of `put`, `get` and `clear` calls. -/
inductive Reach (n : Nat) : CircularBuffer (2 ^ n) → Prop where
  | start : Reach n (CircularBuffer.start (2 ^ n))
  | put (cb : CircularBuffer (2 ^ n)) (b : Nat) :
      Reach n cb → Reach n (cb.put b).1
  | get (cb : CircularBuffer (2 ^ n)) : Reach n cb → Reach n (cb.get).1
  | clear (cb : CircularBuffer (2 ^ n)) : Reach n cb → Reach n cb.clear

theorem clear_view (n : Nat) (cb : CircularBuffer (2 ^ n)) :
    (cb.clear).View 0 := by
  unfold CircularBuffer.clear
  exact ⟨by positivity, by positivity, by simp⟩

theorem reach_view {n : Nat} {cb : CircularBuffer (2 ^ n)}
    (hr : Reach n cb) : ∃ len, cb.View len := by
  induction hr with
  | start => exact ⟨0, start_view n⟩
  | put cb b _ ih =>
    obtain ⟨len, hv⟩ := ih
    by_cases hfull : len = 2 ^ n - 1
    · subst hfull
      rw [put_full hv b]
      exact ⟨_, hv⟩
    · exact ⟨len + 1, view_put hv (by have := hv.len_lt; omega) b⟩
  | get cb _ ih =>
    obtain ⟨len, hv⟩ := ih
    cases len with
    | zero =>
      rw [get_empty hv]
      exact ⟨0, hv⟩
    | succ k => exact ⟨k, view_get hv⟩
  | clear cb _ _ => exact ⟨0, clear_view n cb⟩

/-! ### Iterated successful `put` -/

theorem putAll_ok {n : Nat} (hn : n ≤ 15) (bs : List Nat) :
    ∀ (cb : CircularBuffer (2 ^ n)) (len : Nat), cb.View len →
      len + bs.length ≤ 2 ^ n - 1 →
      (cb.putAll bs).2 = List.replicate bs.length true ∧
        ((cb.putAll bs).1).contents = cb.contents ++ bs ∧
        ((cb.putAll bs).1).View (len + bs.length) := by
  induction bs with
  | nil =>
    intro cb len hv _
    refine ⟨rfl, by simp [CircularBuffer.putAll], by simpa using hv⟩
  | cons b bs ih =>
    intro cb len hv hle
    have hlt : len < 2 ^ n - 1 := by
      simp only [List.length_cons] at hle
      omega
    have hv1 := view_put hv hlt b
    have hc1 := contents_put hn hv hlt b
    have hsucc : (cb.put b).2 = true := by rw [put_not_full hv hlt b]
    obtain ⟨hres, hcont, hview⟩ := ih (cb.put b).1 (len + 1) hv1
      (by simp only [List.length_cons] at hle; omega)
    refine ⟨?_, ?_, ?_⟩
    · simp only [CircularBuffer.putAll, List.length_cons,
        List.replicate_succ, hres, hsucc]
    · simp only [CircularBuffer.putAll]
      rw [hcont, hc1]
      simp
    · simp only [CircularBuffer.putAll, List.length_cons]
      have h1 : len + (bs.length + 1) = len + 1 + bs.length := by omega
      rw [h1]
      exact hview

/-! ### Claims -/

/-- Claim C1 (FIFO delivery): for every buffer capacity `2^n` accepted by
the code, every peripheral and every interleaving of foreground
`sendByte` calls and transmit-complete interrupts, the bytes successfully
enqueued are exactly the bytes handed to the peripheral transmit
primitive (by `startTransmission` and `handleTxCompleteInterrupt`
together) followed by the bytes still queued; in particular once the
buffer has drained the transmitted sequence equals the enqueued sequence,
in order. -/
theorem usart_c1_fifo_delivery (n : Nat) (hn : n ≤ 15) (p : PeripheralType)
    (evs : List Ev) :
    ((UsartDriver.construct (2 ^ n) p).run evs).2.1 =
      ((UsartDriver.construct (2 ^ n) p).run evs).2.2 ++
        ((((UsartDriver.construct (2 ^ n) p).run evs).1).txBuffer).contents ∧
    (((((UsartDriver.construct (2 ^ n) p).run evs).1).txBuffer).contents = [] →
      ((UsartDriver.construct (2 ^ n) p).run evs).2.2 =
        ((UsartDriver.construct (2 ^ n) p).run evs).2.1) := by
  have hv0 : ((UsartDriver.construct (2 ^ n) p).txBuffer).View 0 := start_view n
  obtain ⟨_, heq⟩ := run_sim hn evs (UsartDriver.construct (2 ^ n) p) 0 hv0
  rw [contents_nil hn hv0, List.nil_append] at heq
  refine ⟨heq, fun hnil => ?_⟩
  rw [heq, hnil, List.append_nil]

theorem usart_c1_fifo_delivery_witness :
    (3 : Nat) ≤ 15 ∧
    (((UsartDriver.construct (2 ^ 3) PeripheralType.LPUART_1).run
        [Ev.send 1, Ev.irq, Ev.send 2]).2.1 =
      ((UsartDriver.construct (2 ^ 3) PeripheralType.LPUART_1).run
        [Ev.send 1, Ev.irq, Ev.send 2]).2.2 ++
        ((((UsartDriver.construct (2 ^ 3) PeripheralType.LPUART_1).run
          [Ev.send 1, Ev.irq, Ev.send 2]).1).txBuffer).contents) :=
  ⟨by decide,
    (usart_c1_fifo_delivery 3 (by decide) PeripheralType.LPUART_1
      [Ev.send 1, Ev.irq, Ev.send 2]).1⟩

/-- Claim C2 (Idle-to-Active transition): whenever an enqueue succeeds
while `transmissionActive = false`, `sendByte` returns `true`, pulls one
byte from the ring buffer (the oldest; the queue plus the new byte is the
transmitted singleton followed by the remaining queue), hands it to the
transmit primitive, and makes `isTransmissionActive()` true.  Concretely,
`sendByte(0xAA)` on an idle driver with an empty 256-byte buffer returns
`true`, makes `isTransmissionActive()` true immediately, and hands exactly
`0xAA` to the adapter synchronously, before any interrupt fires. -/
theorem usart_c2_idle_to_active (n : Nat) (hn : n ≤ 15)
    (d : UsartDriver (2 ^ n)) (len : Nat) (hv : d.txBuffer.View len)
    (hidle : d.transmissionActive = false) (b : Nat)
    (hsucc : (d.txBuffer.put b).2 = true) :
    (d.sendByte b).2.1 = true ∧
    ((d.sendByte b).1).isTransmissionActive = true ∧
    ((d.sendByte b).2.2).length = 1 ∧
    (d.sendByte b).2.2 ++ (((d.sendByte b).1).txBuffer).contents =
      d.txBuffer.contents ++ [b] ∧
    (((UsartDriver.construct 256 PeripheralType.LPUART_1).sendByte 0xAA).2.1
        = true ∧
      (((UsartDriver.construct 256
          PeripheralType.LPUART_1).sendByte 0xAA).1).isTransmissionActive
        = true ∧
      ((UsartDriver.construct 256 PeripheralType.LPUART_1).sendByte 0xAA).2.2
        = [0xAA]) := by
  have hlt : len < 2 ^ n - 1 := by
    by_contra hge
    have hfull : len = 2 ^ n - 1 := by have := hv.len_lt; omega
    subst hfull
    rw [put_full hv b] at hsucc
    simp at hsucc
  rw [sendByte_idle hv hlt hidle b]
  refine ⟨rfl, rfl, rfl, ?_, by decide⟩
  have h1 := contents_get hn (view_put hv hlt b)
  have h2 := contents_put hn hv hlt b
  rw [List.singleton_append, ← h1, h2]

theorem usart_c2_idle_to_active_witness :
    (3 : Nat) ≤ 15 ∧
    ((UsartDriver.construct (2 ^ 3) PeripheralType.LPUART_1).txBuffer).View 0 ∧
    (UsartDriver.construct (2 ^ 3)
      PeripheralType.LPUART_1).transmissionActive = false ∧
    (((UsartDriver.construct (2 ^ 3)
      PeripheralType.LPUART_1).txBuffer).put 65).2 = true ∧
    ((UsartDriver.construct (2 ^ 3) PeripheralType.LPUART_1).sendByte 65).2.1
      = true :=
  ⟨by decide, by decide, by decide, by decide,
    (usart_c2_idle_to_active 3 (by decide)
      (UsartDriver.construct (2 ^ 3) PeripheralType.LPUART_1) 0 (by decide)
      (by decide) 65 (by decide)).1⟩

/-- Claim C3 (interrupt drain transition): on a transmit-complete
interrupt, if the ring buffer is non-empty `handleTxCompleteInterrupt`
removes the oldest byte, hands it to the transmit primitive and leaves
`transmissionActive` untouched (so an active transmission stays active);
if the buffer is empty it only sets the state to idle and performs no
hardware transmit action.  Consequently, after enqueuing `[1,2,3]` from
idle (which transmits `1` in the foreground), three consecutive
interrupt-drain events transmit `2`, then `3`, then set the state to idle
without invoking the adapter. -/
theorem usart_c3_interrupt_drain (n : Nat) (hn : n ≤ 15)
    (d : UsartDriver (2 ^ n)) (len : Nat) (hv : d.txBuffer.View len) :
    (d.txBuffer.contents = [] →
      d.handleTxCompleteInterrupt = ({ d with transmissionActive := false }, [])) ∧
    (d.txBuffer.contents ≠ [] →
      (d.handleTxCompleteInterrupt).2 = [d.txBuffer.contents.headI] ∧
      ((d.handleTxCompleteInterrupt).1).transmissionActive
        = d.transmissionActive ∧
      (((d.handleTxCompleteInterrupt).1).txBuffer).contents
        = d.txBuffer.contents.tail) ∧
    (((((UsartDriver.construct 8 PeripheralType.LPUART_1).run
          [Ev.send 1, Ev.send 2, Ev.send 3]).1).handleTxCompleteInterrupt).2
        = [2] ∧
      (((((UsartDriver.construct 8 PeripheralType.LPUART_1).run
          [Ev.send 1, Ev.send 2, Ev.send 3]).1).handleTxCompleteInterrupt).1).transmissionActive
        = true ∧
      ((((((UsartDriver.construct 8 PeripheralType.LPUART_1).run
          [Ev.send 1, Ev.send 2,
            Ev.send 3]).1).handleTxCompleteInterrupt).1).handleTxCompleteInterrupt).2
        = [3] ∧
      ((((((((UsartDriver.construct 8 PeripheralType.LPUART_1).run
          [Ev.send 1, Ev.send 2,
            Ev.send 3]).1).handleTxCompleteInterrupt).1).handleTxCompleteInterrupt).1).handleTxCompleteInterrupt).2
        = [] ∧
      (((((((((UsartDriver.construct 8 PeripheralType.LPUART_1).run
          [Ev.send 1, Ev.send 2,
            Ev.send 3]).1).handleTxCompleteInterrupt).1).handleTxCompleteInterrupt).1).handleTxCompleteInterrupt).1).transmissionActive
        = false) := by
  refine ⟨fun hnil => ?_, fun hne => ?_, by decide⟩
  · have h0 : len = 0 := (contents_eq_nil_iff hn hv).mp hnil
    subst h0
    exact handleTx_empty hv
  · cases len with
    | zero => exact absurd (contents_nil hn hv) hne
    | succ k =>
      have hg := contents_get hn hv
      rw [handleTx_cons hv]
      exact ⟨by simp [hg], rfl, by simp [hg]⟩

theorem usart_c3_interrupt_drain_witness :
    (3 : Nat) ≤ 15 ∧
    ((((UsartDriver.construct (2 ^ 3) PeripheralType.LPUART_1).run
        [Ev.send 1, Ev.send 2, Ev.send 3]).1).txBuffer).View 2 ∧
    ((((UsartDriver.construct (2 ^ 3) PeripheralType.LPUART_1).run
        [Ev.send 1, Ev.send 2, Ev.send 3]).1).handleTxCompleteInterrupt).2 =
      [(((((UsartDriver.construct (2 ^ 3) PeripheralType.LPUART_1).run
        [Ev.send 1, Ev.send 2, Ev.send 3]).1).txBuffer).contents).headI] :=
  ⟨by decide, by decide,
    ((usart_c3_interrupt_drain 3 (by decide)
      (((UsartDriver.construct (2 ^ 3) PeripheralType.LPUART_1).run
        [Ev.send 1, Ev.send 2, Ev.send 3]).1) 2 (by decide)).2.1
      (by decide)).1⟩

/-- Claim C4 (capacity and atomicity of `put`): for every power-of-two
capacity `2^n`, starting from an empty buffer every one of the first
`2^n - 1` consecutive `put` calls succeeds and stores its byte (the final
contents are exactly the bytes put, in order), while a `put` on any
well-formed buffer already holding `2^n - 1` bytes returns `false` and
leaves the head index, the tail index and the stored contents unchanged. -/
theorem usart_c4_capacity (n : Nat) (hn : n ≤ 15) (bs : List Nat)
    (hlen : bs.length = 2 ^ n - 1) (cb : CircularBuffer (2 ^ n))
    (hfull : cb.View (2 ^ n - 1)) (b : Nat) :
    ((CircularBuffer.start (2 ^ n)).putAll bs).2 =
      List.replicate bs.length true ∧
    (((CircularBuffer.start (2 ^ n)).putAll bs).1).contents = bs ∧
    cb.put b = (cb, false) := by
  obtain ⟨hres, hcont, _⟩ := putAll_ok hn bs (CircularBuffer.start (2 ^ n)) 0
    (start_view n) (by omega)
  refine ⟨hres, ?_, put_full hfull b⟩
  rw [hcont, contents_nil hn (start_view n), List.nil_append]

theorem usart_c4_capacity_witness :
    (2 : Nat) ≤ 15 ∧ ([5, 6, 7] : List Nat).length = 2 ^ 2 - 1 ∧
    (CircularBuffer.mk (fun _ => 0) 3 0 : CircularBuffer (2 ^ 2)).View
      (2 ^ 2 - 1) ∧
    ((CircularBuffer.start (2 ^ 2)).putAll [5, 6, 7]).2 =
      List.replicate ([5, 6, 7] : List Nat).length true :=
  ⟨by decide, by decide, by decide,
    (usart_c4_capacity 2 (by decide) [5, 6, 7] (by decide)
      (CircularBuffer.mk (fun _ => 0) 3 0) (by decide) 9).1⟩

/-- Claim C5 (space/size complement invariant): for every power-of-two
capacity `2^n` and every buffer state reachable by any sequence of `put`,
`get` and `clear` operations, `availableSpace() + size() = 2^n - 1`;
equivalently at the driver level
`getAvailableSpace() + getQueueSize() = 2^n - 1`. -/
theorem usart_c5_space_size_invariant (n : Nat) (hn : n ≤ 15)
    (d : UsartDriver (2 ^ n)) (hr : Reach n d.txBuffer) :
    (d.txBuffer).availableSpace + (d.txBuffer).size = 2 ^ n - 1 ∧
    d.getAvailableSpace + d.getQueueSize = 2 ^ n - 1 := by
  obtain ⟨len, hv⟩ := reach_view hr
  have h := view_space_size hn hv
  exact ⟨h, h⟩

theorem usart_c5_space_size_invariant_witness :
    (3 : Nat) ≤ 15 ∧
    Reach 3 ((UsartDriver.construct (2 ^ 3) PeripheralType.LPUART_1).txBuffer) ∧
    (UsartDriver.construct (2 ^ 3) PeripheralType.LPUART_1).getAvailableSpace +
      (UsartDriver.construct (2 ^ 3) PeripheralType.LPUART_1).getQueueSize =
      2 ^ 3 - 1 :=
  ⟨by decide, Reach.start,
    (usart_c5_space_size_invariant 3 (by decide)
      (UsartDriver.construct (2 ^ 3) PeripheralType.LPUART_1) Reach.start).2⟩

/-- Claim C7 (scenario A), counterexample: the spec predicts that with
capacity 8 only the first six of the seven enqueues `[1..7]` succeed and
the seventh fails; on the code the seventh `put` succeeds as well, so the
predicted result vector `[true ×6, false]` is wrong at this input. -/
theorem usart_c7_scenarioA_counterexample :
    ¬ ((CircularBuffer.start (2 ^ 3)).putAll [1, 2, 3, 4, 5, 6, 7]).2 =
        [true, true, true, true, true, true, false] := by
  decide

/-- Claim C7 (scenario A, amended): with capacity 8 (7 usable slots),
enqueuing `[1,2,3,4,5,6,7]` succeeds for all seven bytes; the buffer then
holds 7 bytes with `availableSpace() = 0`, an eighth `put` fails, and
`queuedCount()` is still 7 after the failure. -/
theorem usart_c7_scenarioA_amended :
    ((CircularBuffer.start (2 ^ 3)).putAll [1, 2, 3, 4, 5, 6, 7]).2 =
      List.replicate 7 true ∧
    (((CircularBuffer.start (2 ^ 3)).putAll [1, 2, 3, 4, 5, 6, 7]).1).size
      = 7 ∧
    (((CircularBuffer.start (2 ^ 3)).putAll
      [1, 2, 3, 4, 5, 6, 7]).1).availableSpace = 0 ∧
    ((((CircularBuffer.start (2 ^ 3)).putAll
      [1, 2, 3, 4, 5, 6, 7]).1).put 8).2 = false ∧
    (((((CircularBuffer.start (2 ^ 3)).putAll
      [1, 2, 3, 4, 5, 6, 7]).1).put 8).1).size = 7 := by
  decide

/-- Claim C8 (unregistered interrupt dispatch is a no-op): when no driver
instance is registered, `handleLpuart1Interrupt` returns without invoking
any driver operation (empty transmit trace) and leaves the registry — and
hence every driver and buffer — unchanged. -/
theorem usart_c8_unregistered_dispatch_noop :
    handleLpuart1Interrupt none = (none, []) := rfl

/-- Claim C9, counterexample: `clear()` always resets both indices to 0,
so on an empty buffer whose indices are equal but non-zero (here
`head = tail = 1`) the state is changed, refuting the claim as stated. -/
theorem usart_c9_clear_counterexample :
    (CircularBuffer.mk (fun _ => 0) 1 1 : CircularBuffer (2 ^ 3)).clear ≠
      CircularBuffer.mk (fun _ => 0) 1 1 := by
  intro h
  exact absurd (congrArg CircularBuffer.head h) (by decide)

/-- Claim C9 (amended): calling `clear()` on an empty buffer (`head =
tail`, in range) preserves the stored byte array and every observable —
`contents`, `isEmpty`, `isFull`, `size`, `availableSpace` — although it
resets both indices to 0; the raw state is literally unchanged exactly
when the indices were already 0. -/
theorem usart_c9_clear_amended (n : Nat) (hn : n ≤ 15)
    (cb : CircularBuffer (2 ^ n)) (hh : cb.head < 2 ^ n)
    (hemp : cb.head = cb.tail) :
    (cb.clear).buffer = cb.buffer ∧
    (cb.clear).contents = cb.contents ∧
    (cb.clear).isEmpty = cb.isEmpty ∧
    (cb.clear).isFull = cb.isFull ∧
    (cb.clear).size = cb.size ∧
    (cb.clear).availableSpace = cb.availableSpace ∧
    (cb.head = 0 → cb.clear = cb) := by
  have ht : cb.tail < 2 ^ n := hemp ▸ hh
  have hv : cb.View 0 :=
    ⟨ht, by positivity, by rw [Nat.add_zero, Nat.mod_eq_of_lt ht]; exact hemp⟩
  have hv' : (cb.clear).View 0 := clear_view n cb
  refine ⟨rfl, ?_, ?_, ?_, ?_, ?_, ?_⟩
  · rw [contents_nil hn hv', contents_nil hn hv]
  · simp [CircularBuffer.isEmpty, CircularBuffer.clear, hemp]
  · unfold CircularBuffer.isFull CircularBuffer.clear
    simp only [mask_eq_mod]
    cases n with
    | zero =>
      have h0 : cb.head = 0 := by omega
      have h1 : cb.tail = 0 := by omega
      rw [h0, h1]
    | succ m =>
      have hC2 : 2 ≤ 2 ^ (m + 1) := by
        have h2 : (2 : Nat) ^ 1 ≤ 2 ^ (m + 1) :=
          Nat.pow_le_pow_right (by norm_num) (by omega)
        simpa using h2
      have hL : (0 + 1) % 2 ^ (m + 1) = 1 := Nat.mod_eq_of_lt (by omega)
      have hR : (cb.head + 1) % 2 ^ (m + 1) ≠ cb.tail := by
        rw [hemp]
        intro hcon
        have h3 := (add_mod_eq_self_iff _ _ _ ht).mp hcon
        rw [Nat.mod_eq_of_lt (by omega)] at h3
        omega
      rw [hL, beq_eq_false_iff_ne.mpr hR]
      decide
  · rw [view_size hn hv', view_size hn hv]
  · rw [view_avail hn hv', view_avail hn hv]
  · intro h0
    have h1 : cb.tail = 0 := by omega
    cases cb with
    | mk buf hd tl =>
      simp only at h0 h1
      simp [CircularBuffer.clear, h0, h1]

theorem usart_c9_clear_amended_witness :
    (3 : Nat) ≤ 15 ∧ (2 : Nat) < 2 ^ 3 ∧
    ((CircularBuffer.mk (fun _ => 0) 2 2 : CircularBuffer (2 ^ 3)).clear).availableSpace =
      (CircularBuffer.mk (fun _ => 0) 2 2 : CircularBuffer (2 ^ 3)).availableSpace :=
  ⟨by decide, by decide,
    (usart_c9_clear_amended 3 (by decide)
      (CircularBuffer.mk (fun _ => 0) 2 2) (by decide)
      (by decide)).2.2.2.2.2.1⟩

/-- Claim C10 (implicit): `UsartDriver::initialize(cfg)` — modelled as
`UsartDriver.initConfig` — returns `true` for every driver instance
(hence every peripheral type) and every configuration value; the
success/failure interface never reports failure. -/
theorem usart_c10_initConfig_returns_true (SIZE : Nat)
    (d : UsartDriver SIZE) (cfg : Config) :
    (d.initConfig cfg).2 = true := rfl

end USART
